import Mathlib

/-!
Verification development for the Tic Tac Toe frontend
(src/tic_tac_toe_frontend/src/App.js).

The game logic of App.js is embedded shallowly:

* a JS cell value (`null` / `undefined` / a player string) becomes
  `Option Player`, with `none` for EMPTY and out-of-range reads;
* `Array(size*size).fill(null)` becomes `List.replicate`;
* `buildWinningLines`, `calculateWinner`, `isBoardFull` and `aiMove` are
  translated function by function;
* the React state of the `Game` component (boardSize, squares, xIsNext,
  mode, aiPlaysAs, scores) becomes a `Session` structure, and the state
  updates `handleMove`, `onCellClick`, `resetBoard`, `resetAll`,
  `changeMode`, `changeAiSide`, `changeBoardSize` become functions
  `Session → ... → Session`;
* the score-updating `useEffect` (dependencies `[gameOver, winner]`)
  becomes `scoreEffect`, which receives the dependency pair observed at
  the previous render and runs the effect body only when it changed;
* `Math.random()` in the random fallback of `aiMove` is modelled by an
  extra `Nat` argument reduced modulo the number of empty cells, which
  matches the range of `Math.floor(Math.random() * emptyIndices.length)`.
-/

namespace TicTacToe

/-- The two player symbols, `Players.X` and `Players.O` in App.js. -/
inductive Player
  | X
  | O
deriving DecidableEq

/-- The two game modes, `Modes.HUMAN` and `Modes.AI` in App.js. -/
inductive Mode
  | HUMAN
  | AI
deriving DecidableEq

/-- A board is the `squares` array of App.js: one optional symbol per cell,
row-major. -/
abbrev Board := List (Option Player)

/-- Reading `squares[i]` in JS: `none` both for a stored `null` and for an
out-of-range index (JS `undefined`). -/
def cell (squares : Board) (i : Nat) : Option Player :=
  squares.getD i none

/-- Writing `arr[i] = v` on a JS array copy: in range it overwrites, past the
end it extends the array with holes (which read back as `undefined`, i.e.
`none`). -/
def jsSet (squares : Board) (i : Nat) (v : Option Player) : Board :=
  if i < squares.length then squares.set i v
  else squares ++ List.replicate (i - squares.length) none ++ [v]

/-- `emptyBoard(size)` of App.js: `Array(size*size).fill(null)`. -/
def emptyBoard (size : Nat) : Board :=
  List.replicate (size * size) none

/-- `buildWinningLines(size)` of App.js: rows, then columns, then the main
diagonal (`i*(size+1)` for `i = 0..size-1`), then the anti-diagonal
(`i*(size-1)` for `i = 1..size`, written here as `(i+1)*(size-1)` over
`i = 0..size-1`). -/
def buildWinningLines (size : Nat) : List (List Nat) :=
  ((List.range size).map (fun r => (List.range size).map (fun c => r * size + c))) ++
  ((List.range size).map (fun c => (List.range size).map (fun r => r * size + c))) ++
  [(List.range size).map (fun i => i * (size + 1)),
   (List.range size).map (fun i => (i + 1) * (size - 1))]

/-- The body of the loop of `calculateWinner`: for one line, take its first
cell; if empty (or the line is empty) there is no winner on this line;
otherwise there is a winner exactly when all remaining cells hold the same
symbol (`rest.every((idx) => squares[idx] === token)`). -/
def lineWinner (squares : Board) (line : List Nat) : Option (Player × List Nat) :=
  match line with
  | [] => none
  | first :: rest =>
    match cell squares first with
    | none => none
    | some token =>
      if rest.all (fun idx => cell squares idx = some token) then
        some (token, first :: rest)
      else none

/-- `calculateWinner(squares, size)` of App.js: the first line of
`buildWinningLines` with a winner, together with that line; `none` plays the
role of `{ winner: null, line: [] }`. -/
def calculateWinner (squares : Board) (size : Nat) : Option (Player × List Nat) :=
  (buildWinningLines size).findSome? (fun line => lineWinner squares line)

/-- The `winner` field alone, as compared by `=== player` in `aiMove` and
used in the `Game` component. -/
def winnerOf (squares : Board) (size : Nat) : Option Player :=
  (calculateWinner squares size).map Prod.fst

/-- `isBoardFull(squares)` of App.js: `squares.every(Boolean)`. -/
def isBoardFull (squares : Board) : Bool :=
  squares.all (fun c => c.isSome)

/-- The three-valued outcome the `Game` component derives from
`calculateWinner` and `isBoardFull` (the spec calls it `evaluate`). -/
inductive Outcome
  | InProgress
  | Win (p : Player) (line : List Nat)
  | Draw
deriving DecidableEq

/-- The outcome derivation of the `Game` component (lines 178-181 and the
status text): a winner wins, otherwise a full board is a draw, otherwise the
game is in progress. -/
def evaluate (squares : Board) (size : Nat) : Outcome :=
  match calculateWinner squares size with
  | some (p, line) => Outcome.Win p line
  | none => if isBoardFull squares then Outcome.Draw else Outcome.InProgress

/-- The opponent symbol: `aiPlayer === Players.X ? Players.O : Players.X` in
`aiMove`. -/
def other (p : Player) : Player :=
  if p = Player.X then Player.O else Player.X

/-- The `emptyIndices` list of `aiMove`:
`squares.map((v, i) => (v ? null : i)).filter(v => v !== null)`, i.e. the
indices below `squares.length` holding an empty cell, in ascending order. -/
def emptyIndices (squares : Board) : List Nat :=
  (List.range squares.length).filter (fun i => (cell squares i).isNone)

/-- The `findWinningMove` helper of `aiMove`: the first empty index (ascending)
where placing `player` makes `calculateWinner` report `player` as the winner. -/
def findWinningMove (squares : Board) (size : Nat) (player : Player) : Option Nat :=
  (emptyIndices squares).find?
    (fun idx => winnerOf (jsSet squares idx (some player)) size = some player)

/-- `aiMove(squares, aiPlayer, size)` of App.js. The argument `r` models the
value of `Math.random()`: the random branch picks
`emptyIndices[Math.floor(Math.random() * emptyIndices.length)]`, an arbitrary
in-range index, modelled as `r % emptyIndices.length`. -/
def aiMove (squares : Board) (aiPlayer : Player) (size : Nat) (r : Nat) : Option Nat :=
  let human := other aiPlayer
  match findWinningMove squares size aiPlayer with
  | some winIdx => some winIdx
  | none =>
    match findWinningMove squares size human with
    | some blockIdx => some blockIdx
    | none =>
      let empties := emptyIndices squares
      if empties.length = 0 then none
      else empties[r % empties.length]?

/-- The scoreboard state `{ X, O, draws }` of the `Game` component. -/
structure Scores where
  x : Nat
  o : Nat
  draws : Nat
deriving DecidableEq

/-- The React state of the `Game` component. -/
structure Session where
  boardSize : Nat
  squares : Board
  xIsNext : Bool
  mode : Mode
  aiPlaysAs : Player
  scores : Scores
deriving DecidableEq

/-- `currentPlayer = xIsNext ? Players.X : Players.O`. -/
def currentPlayer (s : Session) : Player :=
  if s.xIsNext then Player.X else Player.O

/-- `gameOver = Boolean(winner) || isBoardFull(squares)`. -/
def gameOverB (s : Session) : Bool :=
  (winnerOf s.squares s.boardSize).isSome || isBoardFull s.squares

/-- `handleMove(i)` of the `Game` component: a no-op when the cell is taken,
a winner exists, or the game is over; otherwise it places the current player
symbol at `i` and flips `xIsNext`. -/
def handleMove (s : Session) (i : Nat) : Session :=
  if (cell s.squares i).isSome || (winnerOf s.squares s.boardSize).isSome || gameOverB s
  then s
  else { s with squares := jsSet s.squares i (some (currentPlayer s)),
                xIsNext := !s.xIsNext }

/-- `onCellClick(i)` of the `Game` component: ignore the click when it is the
AI turn in AI mode, otherwise defer to `handleMove`. -/
def onCellClick (s : Session) (i : Nat) : Session :=
  if s.mode = Mode.AI ∧ currentPlayer s = s.aiPlaysAs then s
  else handleMove s i

/-- `resetBoard` of the `Game` component: new round, scores persist. -/
def resetBoard (s : Session) : Session :=
  { s with squares := emptyBoard s.boardSize, xIsNext := true }

/-- `resetAll` of the `Game` component: new round and scores zeroed. -/
def resetAll (s : Session) : Session :=
  { s with squares := emptyBoard s.boardSize, xIsNext := true,
           scores := ⟨0, 0, 0⟩ }

/-- `changeMode(newMode)`: set the mode, then `resetBoard`. -/
def changeMode (s : Session) (m : Mode) : Session :=
  resetBoard { s with mode := m }

/-- `changeAiSide(side)`: set the AI side, then `resetBoard`. -/
def changeAiSide (s : Session) (p : Player) : Session :=
  resetBoard { s with aiPlaysAs := p }

/-- `changeBoardSize(size)`: set the size and clear the board to the new
size, X to move (scores persist). -/
def changeBoardSize (s : Session) (n : Nat) : Session :=
  { s with boardSize := n, squares := emptyBoard n, xIsNext := true }

/-- The dependency pair `[gameOver, winner]` of the score-updating
`useEffect`. -/
def depsOf (s : Session) : Bool × Option Player :=
  (gameOverB s, winnerOf s.squares s.boardSize)

/-- The score increment of the effect body: bump the winner counter, or the
draw counter when there is no winner. -/
def bumpScore (sc : Scores) (w : Option Player) : Scores :=
  match w with
  | some Player.X => { sc with x := sc.x + 1 }
  | some Player.O => { sc with o := sc.o + 1 }
  | none => { sc with draws := sc.draws + 1 }

/-- The score-updating `useEffect` of the `Game` component, run after a
render: `prevDeps` is the dependency pair `[gameOver, winner]` observed at
the previous render; React skips the effect body when it is unchanged, and
otherwise the body increments a counter exactly when `gameOver` holds.
Returns the session (possibly with bumped scores) and the dependency pair
remembered for the next render. -/
def scoreEffect (s : Session) (prevDeps : Bool × Option Player) :
    Session × (Bool × Option Player) :=
  let deps := depsOf s
  if deps = prevDeps then (s, prevDeps)
  else if deps.1 then ({ s with scores := bumpScore s.scores deps.2 }, deps)
  else (s, deps)

/-- One user- or timer-triggered state transition of the `Game` component. -/
inductive Op
  | move (i : Nat)
  | reset
  | resetEverything
  | setMode (m : Mode)
  | setAiSide (p : Player)
  | setSize (n : Nat)

/-- Dispatch of an `Op` to the corresponding handler. -/
def applyOp (s : Session) : Op → Session
  | Op.move i => handleMove s i
  | Op.reset => resetBoard s
  | Op.resetEverything => resetAll s
  | Op.setMode m => changeMode s m
  | Op.setAiSide p => changeAiSide s p
  | Op.setSize n => changeBoardSize s n

/-- Validity of the sizes an `Op` works with: the UI only offers board sizes
3, 4 and 5, of which only positivity is needed here. -/
def opSizeOK (s : Session) : Op → Bool
  | Op.setSize n => decide (1 ≤ n)
  | Op.move _ => true
  | _ => decide (1 ≤ s.boardSize)

/-- A cell that completes a win for `player`: an empty in-range index such
that placing `player` there makes `calculateWinner` report `player` as the
winner (the test of `findWinningMove`). -/
abbrev completesWin (squares : Board) (size : Nat) (player : Player) (i : Nat) : Prop :=
  i < squares.length ∧ cell squares i = none ∧
    winnerOf (jsSet squares i (some player)) size = some player

/-!
Spec-side definitions, transcribed from the natural-language spec and
compared against the code-side definitions above.
-/

/-- Spec, section 3: the winning lines are N row-lines, N column-lines, the
main diagonal with indices `i*(N+1)` for `i` in `0..N-1`, and the
anti-diagonal with indices `i*(N-1)` for `i` in `1..N`. -/
def specWinningLines (size : Nat) : List (List Nat) :=
  ((List.range size).map (fun r => (List.range size).map (fun c => r * size + c))) ++
  ((List.range size).map (fun c => (List.range size).map (fun r => r * size + c))) ++
  [(List.range size).map (fun i => i * (size + 1)),
   (List.range' 1 size).map (fun i => i * (size - 1))]

/-- Spec, section 4.1: a line matches when its first cell is non-empty and
all remaining cells of the line equal it. -/
def specLineMatch (squares : Board) (line : List Nat) : Bool :=
  match line with
  | [] => false
  | first :: rest =>
    (cell squares first).isSome &&
      rest.all (fun idx => cell squares idx = cell squares first)

/-- Spec, section 4.1: walk the lines in order and return `Win(symbol, line)`
for the first matching line. -/
def specFirstWin (squares : Board) : List (List Nat) → Option (Player × List Nat)
  | [] => none
  | line :: ls =>
    match line with
    | [] => specFirstWin squares ls
    | first :: rest =>
      match cell squares first with
      | none => specFirstWin squares ls
      | some sym =>
        if rest.all (fun idx => cell squares idx = some sym) then
          some (sym, first :: rest)
        else specFirstWin squares ls

/-- Spec, section 4.1, `evaluate`: the first matching line wins; if no line
matches, `Draw` when every cell is non-empty, else `InProgress`. -/
def specEvaluate (squares : Board) (size : Nat) : Outcome :=
  match specFirstWin squares (specWinningLines size) with
  | some (sym, line) => Outcome.Win sym line
  | none =>
    if squares.all (fun c => c.isSome) then Outcome.Draw else Outcome.InProgress

/-!
Concrete sessions and boards used by the closed witness theorems.
-/

/-- A fresh 3×3 session in human mode, X to move. -/
def demoSession : Session :=
  ⟨3, emptyBoard 3, true, Mode.HUMAN, Player.O, ⟨0, 0, 0⟩⟩

/-- A concluded 3×3 session: X has won the top row. -/
def demoOver : Session :=
  ⟨3, [some Player.X, some Player.X, some Player.X,
       some Player.O, some Player.O, none, none, none, none],
   false, Mode.HUMAN, Player.O, ⟨0, 0, 0⟩⟩

/-- An in-progress 3×3 session where X completes the top row by playing 2. -/
def demoAlmost : Session :=
  ⟨3, [some Player.X, some Player.X, none,
       some Player.O, some Player.O, none, none, none, none],
   true, Mode.HUMAN, Player.O, ⟨0, 0, 0⟩⟩

/-- A fresh 3×3 session in AI mode with the AI playing X (so it is to move). -/
def demoAI : Session :=
  ⟨3, emptyBoard 3, true, Mode.AI, Player.X, ⟨0, 0, 0⟩⟩

/-- A full 3×3 board with no empty cell. -/
def demoFull : Board :=
  [some Player.X, some Player.O, some Player.X,
   some Player.X, some Player.O, some Player.O,
   some Player.O, some Player.X, some Player.X]

/-- A full 3×3 board whose top row is three X. -/
def demoFullWin : Board :=
  [some Player.X, some Player.X, some Player.X,
   some Player.O, some Player.O, some Player.X,
   some Player.O, some Player.X, some Player.O]

/-- The board of the spec block scenario: X on 0 and 1, O on 4, O to move. -/
def demoBlock : Board :=
  [some Player.X, some Player.X, none,
   none, some Player.O, none, none, none, none]

/-!
Helper lemmas.
-/

theorem cell_replicate_none (k i : Nat) : cell (List.replicate k none) i = none := by
  simp only [cell, List.getD_eq_getElem?_getD, List.getElem?_replicate]
  split <;> rfl

theorem lineWinner_all_empty (k : Nat) (line : List Nat) :
    lineWinner (List.replicate k none) line = none := by
  match line with
  | [] => rfl
  | first :: rest =>
    simp [lineWinner, cell_replicate_none]

theorem winnerOf_all_empty (k size : Nat) :
    winnerOf (List.replicate k none) size = none := by
  have h : calculateWinner (List.replicate k none) size = none := by
    unfold calculateWinner
    exact List.findSome?_eq_none_iff.mpr (fun line _ => lineWinner_all_empty k line)
  simp [winnerOf, h]

theorem isBoardFull_all_empty (k : Nat) (hk : k ≠ 0) :
    isBoardFull (List.replicate k none) = false := by
  unfold isBoardFull
  rw [Bool.eq_false_iff]
  intro hall
  have := List.all_eq_true.mp hall none (List.mem_replicate.mpr ⟨hk, rfl⟩)
  simp at this

/-!
C3: shape of the winning-line enumeration.
-/

/-- C3: for every N ≥ 3, `buildWinningLines N` has exactly 2N+2 entries, each
of length N with N distinct indices all below N², and it contains the N
row-lines, the N column-lines, the main diagonal `i*(N+1)` for i in 0..N-1,
and the anti-diagonal `i*(N-1)` for i in 1..N (written `(i+1)*(N-1)` over
i in 0..N-1). -/
theorem winningLines_wellFormed (N : Nat) (hN : 3 ≤ N) :
    (buildWinningLines N).length = 2 * N + 2 ∧
    (∀ line ∈ buildWinningLines N,
        line.length = N ∧ line.Nodup ∧ ∀ i ∈ line, i < N * N) ∧
    ((List.range N).map (fun i => i * (N + 1))) ∈ buildWinningLines N ∧
    ((List.range N).map (fun i => (i + 1) * (N - 1))) ∈ buildWinningLines N ∧
    (∀ r, r < N → ((List.range N).map (fun c => r * N + c)) ∈ buildWinningLines N) ∧
    (∀ c, c < N → ((List.range N).map (fun r => r * N + c)) ∈ buildWinningLines N) := by
  have hNpos : 0 < N := by omega
  refine ⟨?_, ?_, ?_, ?_, ?_, ?_⟩
  · simp [buildWinningLines]
    omega
  · intro line hline
    simp only [buildWinningLines, List.mem_append, List.mem_map,
      List.mem_range, List.mem_cons, List.not_mem_nil, or_false] at hline
    rcases hline with (⟨r, hr, rfl⟩ | ⟨c, hc, rfl⟩) | (rfl | rfl)
    · refine ⟨by simp, ?_, ?_⟩
      · exact (List.nodup_range N).map (fun a b h => by omega)
      · intro i hi
        simp only [List.mem_map, List.mem_range] at hi
        obtain ⟨c, hcN, rfl⟩ := hi
        have h1 : r * N + c < (r + 1) * N := by
          rw [Nat.succ_mul]; omega
        have h2 : (r + 1) * N ≤ N * N := Nat.mul_le_mul_right N (by omega)
        omega
    · refine ⟨by simp, ?_, ?_⟩
      · refine (List.nodup_range N).map (fun a b h => ?_)
        have : a * N = b * N := by omega
        exact Nat.eq_of_mul_eq_mul_right hNpos this
      · intro i hi
        simp only [List.mem_map, List.mem_range] at hi
        obtain ⟨r, hrN, rfl⟩ := hi
        have h1 : r * N + c < (r + 1) * N := by
          rw [Nat.succ_mul]; omega
        have h2 : (r + 1) * N ≤ N * N := Nat.mul_le_mul_right N (by omega)
        omega
    · refine ⟨by simp, ?_, ?_⟩
      · refine (List.nodup_range N).map (fun a b h => ?_)
        exact Nat.eq_of_mul_eq_mul_right (by omega) h
      · intro i hi
        simp only [List.mem_map, List.mem_range] at hi
        obtain ⟨j, hjN, rfl⟩ := hi
        have h1 : j * (N + 1) + (N + 1) = (j + 1) * (N + 1) := by ring
        have h2 : (j + 1) * (N + 1) ≤ N * (N + 1) := Nat.mul_le_mul_right _ (by omega)
        have h3 : N * (N + 1) = N * N + N := by ring
        omega
    · refine ⟨by simp, ?_, ?_⟩
      · refine (List.nodup_range N).map (fun a b h => ?_)
        have h2 : a + 1 = b + 1 := Nat.eq_of_mul_eq_mul_right (by omega) h
        omega
      · intro i hi
        simp only [List.mem_map, List.mem_range] at hi
        obtain ⟨j, hjN, rfl⟩ := hi
        have h2 : (j + 1) * (N - 1) ≤ N * (N - 1) := Nat.mul_le_mul_right _ (by omega)
        have h3 : N * (N - 1) + N = N * N := by
          have hN1 : N - 1 + 1 = N := by omega
          calc N * (N - 1) + N = N * (N - 1 + 1) := by ring
            _ = N * N := by rw [hN1]
        omega
  · simp [buildWinningLines]
  · simp [buildWinningLines]
  · intro r hr
    simp only [buildWinningLines, List.mem_append, List.mem_map, List.mem_range]
    exact Or.inl (Or.inl ⟨r, hr, rfl⟩)
  · intro c hc
    simp only [buildWinningLines, List.mem_append, List.mem_map, List.mem_range]
    exact Or.inl (Or.inr ⟨c, hc, rfl⟩)

/-- C3 witness at N = 3. -/
theorem winningLines_wellFormed_witness :
    (buildWinningLines 3).length = 2 * 3 + 2 ∧
    ((List.range 3).map (fun i => i * (3 + 1))) ∈ buildWinningLines 3 :=
  ⟨(winningLines_wellFormed 3 (by decide)).1,
   (winningLines_wellFormed 3 (by decide)).2.2.1⟩

/-!
C5: moves to an occupied cell or after conclusion are silent no-ops.
-/

/-- C5: applying a move to an occupied index, or to any index when the game
has concluded (a winner exists or the board is full), returns the session
unchanged in every component. -/
theorem handleMove_rejected_noop (s : Session) (i : Nat)
    (h : (cell s.squares i).isSome = true ∨
         winnerOf s.squares s.boardSize ≠ none ∨
         isBoardFull s.squares = true) :
    handleMove s i = s := by
  unfold handleMove
  rw [if_pos]
  rcases h with h | h | h
  · simp [h]
  · have hw : (winnerOf s.squares s.boardSize).isSome = true :=
      Option.isSome_iff_ne_none.mpr h
    simp [hw]
  · simp [gameOverB, h]

/-- C5 witness: on a session where X already won the top row, moving on the
occupied cell 0 and on the empty cell 5 are both no-ops. -/
theorem handleMove_rejected_noop_witness :
    handleMove demoOver 0 = demoOver ∧ handleMove demoOver 5 = demoOver :=
  ⟨handleMove_rejected_noop demoOver 0 (Or.inl (by decide)),
   handleMove_rejected_noop demoOver 5 (Or.inr (Or.inl (by decide)))⟩

/-!
C7: the control operations and what they preserve.
-/

/-- C7: `resetBoard` clears the board to all-empty of the current size and
sets X to move while keeping scores, size, mode and AI side; `resetAll`
additionally zeroes the three counters; `changeMode`, `changeAiSide` and
`changeBoardSize` each clear the board (the last to the new size) and set X
to move while preserving the scores. -/
theorem controls_frame (s : Session) (m : Mode) (p : Player) (n : Nat) :
    resetBoard s = { s with squares := List.replicate (s.boardSize * s.boardSize) none,
                            xIsNext := true } ∧
    (resetBoard s).scores = s.scores ∧
    (resetBoard s).boardSize = s.boardSize ∧
    (resetBoard s).mode = s.mode ∧
    (resetBoard s).aiPlaysAs = s.aiPlaysAs ∧
    resetAll s = { s with squares := List.replicate (s.boardSize * s.boardSize) none,
                          xIsNext := true, scores := ⟨0, 0, 0⟩ } ∧
    changeMode s m = { s with mode := m,
                              squares := List.replicate (s.boardSize * s.boardSize) none,
                              xIsNext := true } ∧
    changeAiSide s p = { s with aiPlaysAs := p,
                                squares := List.replicate (s.boardSize * s.boardSize) none,
                                xIsNext := true } ∧
    changeBoardSize s n = { s with boardSize := n,
                                   squares := List.replicate (n * n) none,
                                   xIsNext := true } ∧
    (changeMode s m).scores = s.scores ∧
    (changeAiSide s p).scores = s.scores ∧
    (changeBoardSize s n).scores = s.scores :=
  ⟨rfl, rfl, rfl, rfl, rfl, rfl, rfl, rfl, rfl, rfl, rfl, rfl⟩

/-!
C10: clicks during the AI turn are ignored.
-/

/-- C10: in AI mode, when the symbol to move equals the AI symbol, a cell
click on any cell leaves the session unchanged. -/
theorem onCellClick_aiTurn_ignored (s : Session) (i : Nat)
    (hmode : s.mode = Mode.AI) (hturn : currentPlayer s = s.aiPlaysAs) :
    onCellClick s i = s := by
  unfold onCellClick
  rw [if_pos ⟨hmode, hturn⟩]

/-- C10 witness: a fresh AI-mode session with the AI as X ignores clicks. -/
theorem onCellClick_aiTurn_ignored_witness :
    onCellClick demoAI 0 = demoAI ∧ onCellClick demoAI 4 = demoAI :=
  ⟨onCellClick_aiTurn_ignored demoAI 0 rfl rfl,
   onCellClick_aiTurn_ignored demoAI 4 rfl rfl⟩

/-!
C1: the outcome derivation agrees with the spec wording.
-/

theorem specFirstWin_cons (squares : Board) (line : List Nat) (ls : List (List Nat)) :
    specFirstWin squares (line :: ls) =
      match lineWinner squares line with
      | some b => some b
      | none => specFirstWin squares ls := by
  cases line with
  | nil => rfl
  | cons first rest =>
    simp only [specFirstWin, lineWinner]
    cases hcell : cell squares first with
    | none => rfl
    | some sym =>
      by_cases hall : rest.all (fun idx => cell squares idx = some sym) = true
      · simp only [if_pos hall]
      · simp only [if_neg hall]

theorem specFirstWin_eq (squares : Board) (ls : List (List Nat)) :
    specFirstWin squares ls = ls.findSome? (fun line => lineWinner squares line) := by
  induction ls with
  | nil => rfl
  | cons line ls ih =>
    rw [specFirstWin_cons, List.findSome?_cons, ih]
    cases hlw : lineWinner squares line
    · simp [hlw]
    · simp [hlw]

theorem specWinningLines_eq_build (size : Nat) :
    specWinningLines size = buildWinningLines size := by
  have h : (List.range' 1 size).map (fun i => i * (size - 1)) =
      (List.range size).map (fun i => (i + 1) * (size - 1)) := by
    rw [List.range'_eq_map_range, List.map_map]
    refine List.map_congr_left (fun a _ => ?_)
    simp [Function.comp, Nat.add_comm]
  unfold specWinningLines buildWinningLines
  rw [h]

theorem lineWinner_of_specLineMatch (squares : Board) (line : List Nat)
    (h : specLineMatch squares line = true) :
    ∃ sym, lineWinner squares line = some (sym, line) := by
  cases line with
  | nil => simp [specLineMatch] at h
  | cons first rest =>
    simp only [specLineMatch, Bool.and_eq_true] at h
    obtain ⟨hsome, hall⟩ := h
    cases hcell : cell squares first with
    | none => rw [hcell] at hsome; simp at hsome
    | some sym =>
      refine ⟨sym, ?_⟩
      simp only [lineWinner, hcell]
      rw [if_pos]
      simp only [hcell] at hall
      exact hall

/-- C1: `evaluate` (the outcome the `Game` component derives from
`calculateWinner` and `isBoardFull`) classifies every board as exactly one
`Outcome` and coincides with the spec description `specEvaluate` (lines in
the order rows, columns, main diagonal, anti-diagonal; the first line whose
first cell is non-empty and whose remaining cells equal it wins; otherwise
`Draw` exactly when the board is full, else `InProgress`); in particular a
board with a matching line that is also full yields a `Win`, never `Draw`. -/
theorem evaluate_conform (squares : Board) (size : Nat) :
    evaluate squares size = specEvaluate squares size ∧
    (∀ line ∈ buildWinningLines size, specLineMatch squares line = true →
      isBoardFull squares = true →
      evaluate squares size ≠ Outcome.Draw ∧
      ∃ p l, evaluate squares size = Outcome.Win p l) := by
  constructor
  · unfold evaluate specEvaluate
    rw [specWinningLines_eq_build, specFirstWin_eq]
    rfl
  · intro line hline hmatch _hfull
    obtain ⟨sym, hw⟩ := lineWinner_of_specLineMatch squares line hmatch
    have hne : calculateWinner squares size ≠ none := by
      intro hnone
      unfold calculateWinner at hnone
      have hn := List.findSome?_eq_none_iff.mp hnone line hline
      rw [hn] at hw
      exact Option.noConfusion hw
    obtain ⟨⟨p, l⟩, hcw⟩ := Option.ne_none_iff_exists'.mp hne
    unfold evaluate
    rw [hcw]
    exact ⟨by simp, p, l, rfl⟩

/-- C1 witness: a full board whose top row is three X evaluates to a win,
never a draw. -/
theorem evaluate_conform_witness :
    evaluate demoFullWin 3 ≠ Outcome.Draw ∧
    ∃ p l, evaluate demoFullWin 3 = Outcome.Win p l :=
  (evaluate_conform demoFullWin 3).2 [0, 1, 2] (by decide) (by decide) (by decide)

/-!
C6: behavior on malformed input.
-/

/-- C6 counterexample: the operations do not fail fast. `emptyBoard 0` (size
below 1) silently returns the empty board, and a move to the out-of-range
index 9 on a fresh 3×3 session silently proceeds, changing the session and
placing X at index 9; no assertion or error value exists anywhere on these
paths. -/
theorem failFast_counterexample :
    emptyBoard 0 = ([] : Board) ∧
    handleMove demoSession 9 ≠ demoSession ∧
    cell (handleMove demoSession 9).squares 9 = some Player.X := by
  decide

/-- C6 amended: on malformed input the operations silently proceed instead
of failing fast: `emptyBoard` returns `size*size` empty cells for every
size including sizes below 1, and a move to an out-of-range index on a
session whose game is not over is accepted, extending the board with the
placed symbol at that index and flipping the turn. -/
theorem malformed_input_silent (size : Nat) (s : Session) (i : Nat)
    (hi : s.squares.length ≤ i) (hprog : gameOverB s = false) :
    emptyBoard size = List.replicate (size * size) none ∧
    handleMove s i =
      { s with squares := s.squares ++ List.replicate (i - s.squares.length) none ++
                 [some (currentPlayer s)],
               xIsNext := !s.xIsNext } := by
  refine ⟨rfl, ?_⟩
  have hempty : cell s.squares i = none := by
    simp [cell, List.getD_eq_getElem?_getD, List.getElem?_eq_none hi]
  have hwin : (winnerOf s.squares s.boardSize).isSome = false := by
    unfold gameOverB at hprog
    exact (Bool.or_eq_false_iff.mp hprog).1
  unfold handleMove
  rw [if_neg (by simp [hempty, hwin, hprog])]
  unfold jsSet
  rw [if_neg (by omega)]

/-- C6 amended witness at `size = 0` and index 9 on a fresh 3×3 session. -/
theorem malformed_input_silent_witness :
    emptyBoard 0 = List.replicate (0 * 0) none ∧
    handleMove demoSession 9 =
      { demoSession with
          squares := demoSession.squares ++
            List.replicate (9 - demoSession.squares.length) none ++
            [some (currentPlayer demoSession)],
          xIsNext := !demoSession.xIsNext } :=
  malformed_input_silent 0 demoSession 9 (by decide) (by decide)

/-!
C9: frame property of a successful move.
-/

/-- C9: on an unconcluded session, a move to an empty in-range index changes
exactly the target cell (set to the symbol of the player to move) and flips
the turn; every other cell, the board length, the size, mode, AI side and
scores are unchanged. -/
theorem handleMove_frame (s : Session) (i : Nat)
    (hprog : gameOverB s = false) (hempty : cell s.squares i = none)
    (hrange : i < s.squares.length) :
    (handleMove s i).squares.length = s.squares.length ∧
    cell (handleMove s i).squares i = some (currentPlayer s) ∧
    (∀ j, j ≠ i → cell (handleMove s i).squares j = cell s.squares j) ∧
    (handleMove s i).xIsNext = (!s.xIsNext) ∧
    (handleMove s i).boardSize = s.boardSize ∧
    (handleMove s i).mode = s.mode ∧
    (handleMove s i).aiPlaysAs = s.aiPlaysAs ∧
    (handleMove s i).scores = s.scores := by
  have hwin : (winnerOf s.squares s.boardSize).isSome = false := by
    unfold gameOverB at hprog
    exact (Bool.or_eq_false_iff.mp hprog).1
  have hmove : handleMove s i =
      { s with squares := s.squares.set i (some (currentPlayer s)),
               xIsNext := !s.xIsNext } := by
    unfold handleMove
    rw [if_neg (by simp [hempty, hwin, hprog])]
    unfold jsSet
    rw [if_pos hrange]
  rw [hmove]
  refine ⟨by simp, ?_, ?_, rfl, rfl, rfl, rfl, rfl⟩
  · simp [cell, List.getD_eq_getElem?_getD, List.getElem?_set_self hrange]
  · intro j hj
    simp [cell, List.getD_eq_getElem?_getD, List.getElem?_set_ne (Ne.symm hj)]

/-- C9 witness: X moving on cell 4 of a fresh 3×3 session. -/
theorem handleMove_frame_witness :
    cell (handleMove demoSession 4).squares 4 = some (currentPlayer demoSession) ∧
    (handleMove demoSession 4).xIsNext = (!demoSession.xIsNext) ∧
    (handleMove demoSession 4).scores = demoSession.scores := by
  have h := handleMove_frame demoSession 4 (by decide) (by decide) (by decide)
  exact ⟨h.2.1, h.2.2.2.1, h.2.2.2.2.2.2.2⟩

/-!
C2 and C4: the move list of `aiMove`.
-/

theorem mem_emptyIndices {squares : Board} {i : Nat} :
    i ∈ emptyIndices squares ↔ i < squares.length ∧ cell squares i = none := by
  simp [emptyIndices, List.mem_filter, List.mem_range, Option.isNone_iff_eq_none]

theorem emptyIndices_sorted (squares : Board) :
    (emptyIndices squares).Pairwise (· < ·) :=
  (List.pairwise_lt_range _).filter _

theorem find?_least {l : List Nat} {q : Nat → Bool} {w : Nat}
    (hs : l.Pairwise (· < ·)) (hmem : w ∈ l) (hq : q w = true)
    (hmin : ∀ j, j ∈ l → j < w → q j = false) :
    l.find? q = some w := by
  induction l with
  | nil => cases hmem
  | cons a t ih =>
    rcases List.mem_cons.mp hmem with rfl | hmt
    · exact List.find?_cons_of_pos t hq
    · have hpc := List.pairwise_cons.mp hs
      have haw : a < w := hpc.1 w hmt
      have hqa : q a = false := hmin a (List.mem_cons_self a t) haw
      rw [List.find?_cons_of_neg t (by simp [hqa])]
      exact ih hpc.2 hmt (fun j hj hjw => hmin j (List.mem_cons_of_mem a hj) hjw)

theorem findWinningMove_eq_some (squares : Board) (size : Nat) (player : Player) (w : Nat)
    (hw : completesWin squares size player w)
    (hmin : ∀ j, j < w → ¬ completesWin squares size player j) :
    findWinningMove squares size player = some w := by
  obtain ⟨hlt, hcell, hwin⟩ := hw
  unfold findWinningMove
  refine find?_least (emptyIndices_sorted squares) (mem_emptyIndices.mpr ⟨hlt, hcell⟩)
    (decide_eq_true hwin) ?_
  intro j hj hjw
  have hjm := mem_emptyIndices.mp hj
  refine decide_eq_false ?_
  intro hwj
  exact hmin j hjw ⟨hjm.1, hjm.2, hwj⟩

theorem findWinningMove_eq_none (squares : Board) (size : Nat) (player : Player)
    (h : ∀ i, i < squares.length → ¬ completesWin squares size player i) :
    findWinningMove squares size player = none := by
  unfold findWinningMove
  refine List.find?_eq_none.mpr ?_
  intro x hx
  have hxm := mem_emptyIndices.mp hx
  simp only [decide_eq_true_eq]
  intro hwx
  exact h x hxm.1 ⟨hxm.1, hxm.2, hwx⟩

theorem findWinningMove_mem (squares : Board) (size : Nat) (player : Player) (w : Nat)
    (h : findWinningMove squares size player = some w) :
    w ∈ emptyIndices squares := by
  unfold findWinningMove at h
  exact List.mem_of_find?_eq_some h

/-- C2: `aiMove` follows a strict win-then-block priority with lowest-index
tie-break, deterministically: when some empty cell completes a win for the
AI symbol, it returns the lowest such cell regardless of the random input;
otherwise, when some empty cell completes a win for the opponent, it returns
the lowest such blocking cell, again regardless of the random input. -/
theorem aiMove_priority (squares : Board) (ai : Player) (size w r r' : Nat) :
    ((completesWin squares size ai w ∧
        (∀ j, j < w → ¬ completesWin squares size ai j)) →
      aiMove squares ai size r = some w ∧ aiMove squares ai size r' = some w) ∧
    (((∀ i, i < squares.length → ¬ completesWin squares size ai i) ∧
        completesWin squares size (other ai) w ∧
        (∀ j, j < w → ¬ completesWin squares size (other ai) j)) →
      aiMove squares ai size r = some w ∧ aiMove squares ai size r' = some w) := by
  constructor
  · rintro ⟨hw, hmin⟩
    have hfind := findWinningMove_eq_some squares size ai w hw hmin
    constructor <;> simp [aiMove, hfind]
  · rintro ⟨hnone, hw, hmin⟩
    have hfa := findWinningMove_eq_none squares size ai hnone
    have hfb := findWinningMove_eq_some squares size (other ai) w hw hmin
    constructor <;> simp [aiMove, hfa, hfb]

/-- C2 witness: the spec block scenario on a 3×3 board (X on 0 and 1, O on
4, AI plays O): `aiMove` blocks at index 2 for two different random inputs. -/
theorem aiMove_priority_witness :
    aiMove demoBlock Player.O 3 0 = some 2 ∧ aiMove demoBlock Player.O 3 7 = some 2 :=
  (aiMove_priority demoBlock Player.O 3 2 0 7).2 ⟨by decide, by decide, by decide⟩

theorem cell_lt (squares : Board) (i : Nat) (h : i < squares.length) :
    cell squares i = squares[i] := by
  simp [cell, List.getD_eq_getElem?_getD, List.getElem?_eq_getElem h]

theorem emptyIndices_nil_iff (squares : Board) :
    emptyIndices squares = [] ↔ isBoardFull squares = true := by
  unfold emptyIndices isBoardFull
  rw [List.filter_eq_nil_iff, List.all_eq_true]
  constructor
  · intro h x hx
    obtain ⟨i, hi, rfl⟩ := List.mem_iff_getElem.mp hx
    have h2 := h i (List.mem_range.mpr hi)
    have h3 : cell squares i ≠ none := by
      simpa [Option.isNone_iff_eq_none] using h2
    rw [cell_lt squares i hi] at h3
    exact Option.isSome_iff_ne_none.mpr h3
  · intro h a ha
    have hi : a < squares.length := List.mem_range.mp ha
    have h2 := h squares[a] (List.getElem_mem hi)
    simp [cell_lt squares a hi, Option.isNone_iff_eq_none,
      Option.isSome_iff_ne_none.mp h2]

/-- C4: `aiMove` returns the "no move" sentinel `none` exactly when the
board is full, and every index it returns is an empty in-range cell of the
input board, across the win, block and random branches alike. -/
theorem aiMove_safe (squares : Board) (ai : Player) (size r : Nat) :
    (aiMove squares ai size r = none ↔ isBoardFull squares = true) ∧
    (∀ i, aiMove squares ai size r = some i →
      i < squares.length ∧ cell squares i = none) := by
  have hmem : ∀ i, aiMove squares ai size r = some i → i ∈ emptyIndices squares := by
    intro i h
    simp only [aiMove] at h
    cases hfa : findWinningMove squares size ai with
    | some a =>
      simp only [hfa, Option.some.injEq] at h
      exact h ▸ findWinningMove_mem squares size ai a hfa
    | none =>
      simp only [hfa] at h
      cases hfb : findWinningMove squares size (other ai) with
      | some b =>
        simp only [hfb, Option.some.injEq] at h
        exact h ▸ findWinningMove_mem squares size (other ai) b hfb
      | none =>
        simp only [hfb] at h
        by_cases hlen : (emptyIndices squares).length = 0
        · rw [if_pos hlen] at h
          cases h
        · rw [if_neg hlen] at h
          exact List.getElem?_mem h
  refine ⟨⟨?_, ?_⟩, ?_⟩
  · intro h
    simp only [aiMove] at h
    cases hfa : findWinningMove squares size ai with
    | some a =>
      simp only [hfa] at h
      exact Option.noConfusion h
    | none =>
      simp only [hfa] at h
      cases hfb : findWinningMove squares size (other ai) with
      | some b =>
        simp only [hfb] at h
        exact Option.noConfusion h
      | none =>
        simp only [hfb] at h
        by_cases hlen : (emptyIndices squares).length = 0
        · exact (emptyIndices_nil_iff squares).mp (List.length_eq_zero.mp hlen)
        · rw [if_neg hlen] at h
          have hlt : r % (emptyIndices squares).length < (emptyIndices squares).length :=
            Nat.mod_lt _ (Nat.pos_of_ne_zero hlen)
          rw [List.getElem?_eq_getElem hlt] at h
          cases h
  · intro h
    have hnil : emptyIndices squares = [] := (emptyIndices_nil_iff squares).mpr h
    have hfa : findWinningMove squares size ai = none := by
      unfold findWinningMove
      rw [hnil]
      rfl
    have hfb : findWinningMove squares size (other ai) = none := by
      unfold findWinningMove
      rw [hnil]
      rfl
    simp [aiMove, hfa, hfb, hnil]
  · intro i h
    exact mem_emptyIndices.mp (hmem i h)

/-- C4 witness: on a full board `aiMove` returns the no-move sentinel, and
the index it returns on the block-scenario board is an empty in-range cell. -/
theorem aiMove_safe_witness :
    aiMove demoFull Player.X 3 0 = none ∧
    (2 < demoBlock.length ∧ cell demoBlock 2 = none) :=
  ⟨(aiMove_safe demoFull Player.X 3 0).1.mpr (by decide),
   (aiMove_safe demoBlock Player.O 3 5).2 2 (by decide)⟩

/-!
C8: the score effect counts each round conclusion exactly once.
-/

theorem scoreEffect_snd (s : Session) (prev : Bool × Option Player) :
    (scoreEffect s prev).2 = depsOf s := by
  simp only [scoreEffect]
  split
  next h => exact h.symm
  next =>
    split
    next => rfl
    next => rfl

theorem scoreEffect_fst_deps (s : Session) (prev : Bool × Option Player) :
    depsOf (scoreEffect s prev).1 = depsOf s := by
  simp only [scoreEffect]
  split
  next => rfl
  next =>
    split
    next => rfl
    next => rfl

theorem scoreEffect_skip (s : Session) (prev : Bool × Option Player)
    (h : depsOf s = prev) : (scoreEffect s prev).1 = s := by
  simp only [scoreEffect]
  rw [if_pos h]

theorem scoreEffect_not_over (s : Session) (prev : Bool × Option Player)
    (h : gameOverB s = false) : (scoreEffect s prev).1 = s := by
  simp only [scoreEffect]
  by_cases hd : depsOf s = prev
  · rw [if_pos hd]
  · have h1 : (depsOf s).1 = false := h
    rw [if_neg hd, if_neg (by simp [h1])]

theorem scoreEffect_fires (s : Session) (prev : Bool × Option Player)
    (hne : depsOf s ≠ prev) (hover : gameOverB s = true) :
    (scoreEffect s prev).1 =
      { s with scores := bumpScore s.scores (winnerOf s.squares s.boardSize) } := by
  simp only [scoreEffect]
  rw [if_neg hne, if_pos (show (depsOf s).1 = true from hover)]
  rfl

theorem handleMove_of_over (s : Session) (i : Nat) (h : gameOverB s = true) :
    handleMove s i = s := by
  unfold handleMove
  rw [if_pos (by simp [h])]

theorem gameOverB_replicate (s : Session) (k : Nat) (hk : k ≠ 0)
    (hsq : s.squares = List.replicate k none) : gameOverB s = false := by
  unfold gameOverB
  rw [hsq, winnerOf_all_empty, isBoardFull_all_empty k hk]
  rfl

/-- C8: one step of the session (an operation followed by the score effect,
whose remembered dependency pair is that of the previous render): the pair
remembered after the step is again that of the resulting session, so the
statement covers every step of every sequence; a transition from unconcluded
to concluded bumps the scores by exactly one `bumpScore` application; no
bump happens when the resulting state is unconcluded, nor when the state was
already concluded and remains so; and `bumpScore` increments exactly the X
counter on an X win, the O counter on an O win and the draw counter
otherwise, each by exactly one. -/
theorem score_transition (s : Session) (op : Op)
    (hop : opSizeOK s op = true) :
    (scoreEffect (applyOp s op) (depsOf s)).2 =
      depsOf (scoreEffect (applyOp s op) (depsOf s)).1 ∧
    (gameOverB s = false → gameOverB (applyOp s op) = true →
      (scoreEffect (applyOp s op) (depsOf s)).1 =
        { (applyOp s op) with
            scores := bumpScore (applyOp s op).scores
              (winnerOf (applyOp s op).squares (applyOp s op).boardSize) }) ∧
    (gameOverB (applyOp s op) = false →
      (scoreEffect (applyOp s op) (depsOf s)).1.scores = (applyOp s op).scores) ∧
    (gameOverB s = true → gameOverB (applyOp s op) = true →
      (scoreEffect (applyOp s op) (depsOf s)).1.scores = (applyOp s op).scores) ∧
    (∀ sc : Scores,
      bumpScore sc (some Player.X) = ⟨sc.x + 1, sc.o, sc.draws⟩ ∧
      bumpScore sc (some Player.O) = ⟨sc.x, sc.o + 1, sc.draws⟩ ∧
      bumpScore sc none = ⟨sc.x, sc.o, sc.draws + 1⟩) := by
  refine ⟨(scoreEffect_snd _ _).trans (scoreEffect_fst_deps _ _).symm, ?_, ?_, ?_,
    fun sc => ⟨rfl, rfl, rfl⟩⟩
  · intro hso hto
    have hne : depsOf (applyOp s op) ≠ depsOf s := by
      intro h
      have h1 := congrArg Prod.fst h
      simp only [depsOf] at h1
      rw [hso, hto] at h1
      exact Bool.noConfusion h1
    exact scoreEffect_fires (applyOp s op) (depsOf s) hne hto
  · intro hto
    rw [scoreEffect_not_over (applyOp s op) (depsOf s) hto]
  · intro hso hto
    cases op with
    | move i =>
      have ht : applyOp s (Op.move i) = s := handleMove_of_over s i hso
      rw [ht, scoreEffect_skip s (depsOf s) rfl]
    | reset =>
      have hbs : 1 ≤ s.boardSize := of_decide_eq_true hop
      have := gameOverB_replicate (resetBoard s) (s.boardSize * s.boardSize)
        (Nat.mul_ne_zero (by omega) (by omega)) rfl
      rw [show applyOp s Op.reset = resetBoard s from rfl, this] at hto
      exact Bool.noConfusion hto
    | resetEverything =>
      have hbs : 1 ≤ s.boardSize := of_decide_eq_true hop
      have := gameOverB_replicate (resetAll s) (s.boardSize * s.boardSize)
        (Nat.mul_ne_zero (by omega) (by omega)) rfl
      rw [show applyOp s Op.resetEverything = resetAll s from rfl, this] at hto
      exact Bool.noConfusion hto
    | setMode m =>
      have hbs : 1 ≤ s.boardSize := of_decide_eq_true hop
      have := gameOverB_replicate (changeMode s m) (s.boardSize * s.boardSize)
        (Nat.mul_ne_zero (by omega) (by omega)) rfl
      rw [show applyOp s (Op.setMode m) = changeMode s m from rfl, this] at hto
      exact Bool.noConfusion hto
    | setAiSide p =>
      have hbs : 1 ≤ s.boardSize := of_decide_eq_true hop
      have := gameOverB_replicate (changeAiSide s p) (s.boardSize * s.boardSize)
        (Nat.mul_ne_zero (by omega) (by omega)) rfl
      rw [show applyOp s (Op.setAiSide p) = changeAiSide s p from rfl, this] at hto
      exact Bool.noConfusion hto
    | setSize n =>
      have hn : 1 ≤ n := of_decide_eq_true hop
      have := gameOverB_replicate (changeBoardSize s n) (n * n)
        (Nat.mul_ne_zero (by omega) (by omega)) rfl
      rw [show applyOp s (Op.setSize n) = changeBoardSize s n from rfl, this] at hto
      exact Bool.noConfusion hto

/-- C8 witness: X completing the top row from `demoAlmost` bumps the X
counter exactly once. -/
theorem score_transition_witness :
    (scoreEffect (applyOp demoAlmost (Op.move 2)) (depsOf demoAlmost)).1 =
      { (applyOp demoAlmost (Op.move 2)) with
          scores := bumpScore (applyOp demoAlmost (Op.move 2)).scores
            (winnerOf (applyOp demoAlmost (Op.move 2)).squares
              (applyOp demoAlmost (Op.move 2)).boardSize) } :=
  (score_transition demoAlmost (Op.move 2) (by decide)).2.1 (by decide) (by decide)

end TicTacToe
